import Mathlib

/-!
Shallow embedding of the `env` Go package (value resolver `Read`, decoder
table, tag parsing and struct population `ReadStruct`), together with
theorems settling the specification claims.

Modelling conventions:
* the process environment is a function `String → Option String`
  (`none` = variable unset);
* the filesystem is a function from paths to `Option` contents, with the
  OS fact that reading the empty path always fails recorded as a structure
  invariant;
* Go `reflect` values are embedded as the inductive `Env.Value`; struct
  fields carry their tag, settability, shape and current value;
* pointer cells carry an allocation identifier so that "a new cell is
  allocated" versus "the existing cell is written" is observable;
* machine integers are `Int`/`Nat` with the explicit range checks that
  `strconv.ParseInt`/`ParseUint` perform;
* the decoder table embeds the entries exercised by the claims
  (`string`, `[]uint8`, `[]string`, the integer types, `bool`,
  `slog.Level`); the float and time entries fall outside the modelled
  value universe and are not needed by any claim;
* `strings.ToLower` is embedded by its ASCII simple case mapping (the
  claims' alphabet is ASCII).
-/

namespace Env

/-- Process environment: variable name to its value, `none` when unset. -/
def Environ : Type := String → Option String

/-- Filesystem abstraction used by `Read`: `read p` is the full contents of
the file at path `p`, or `none` when the read fails for any reason.
`read_empty` records the OS guarantee that reading the empty path fails. -/
structure FileSystem where
  read : String → Option String
  read_empty : read "" = none

/-- Embeds `Read` (env.go): the value of variable `key` if set, else the
contents of the file whose path is held by `key ++ "_FILE"`, else
`("", false)` with the file-read failure swallowed. -/
def Read (env : Environ) (fs : FileSystem) (key : String) : String × Bool :=
  match env key with
  | some raw => (raw, true)
  | none =>
    match env (key ++ "_FILE") with
    | none => ("", false)
    | some path =>
      match fs.read path with
      | none => ("", false)
      | some raw => (raw, true)

/-- A filesystem with no readable files. -/
def fsEmpty : FileSystem := ⟨fun _ => none, rfl⟩

/-- A filesystem exposing exactly one readable file. -/
def fsOne (path contents : String) (h : path ≠ "") : FileSystem :=
  ⟨fun p => if p = path then some contents else none, by simp [Ne.symm h]⟩

end Env

namespace Env

/-- Structured decoder errors (Go renders these through `fmt`); each carries
the exact offending input string. -/
inductive DecErr where
  | malformed (fn : String) (input : String)
  | outOfRange (fn : String) (input : String)
  | invalidLevel (raw : String)
deriving DecidableEq

/-- Embedded universe of Go dynamic (`any`) values produced by the decoder
table and stored in struct fields. -/
inductive Value where
  | str (s : String)
  | bytes (bs : List Nat)
  | strList (l : List String)
  | int (v : Int)
  | int8 (v : Int)
  | int16 (v : Int)
  | int32 (v : Int)
  | int64 (v : Int)
  | uint (v : Nat)
  | uint8 (v : Nat)
  | uint16 (v : Nat)
  | uint32 (v : Nat)
  | uint64 (v : Nat)
  | bool (b : Bool)
  | level (v : Int)
deriving DecidableEq

/-- Digit loop of `strconv.ParseUint` (base 10): accumulates the base-10
value, rejecting non-digits and any accumulated value above `maxVal`
(Go detects the same condition via its cutoff/wraparound checks). -/
def parseDigits (fnc input : String) (maxVal : Nat) : List Char → Nat → Nat × Option DecErr
  | [], n => (n, none)
  | c :: cs, n =>
    if c.isDigit then
      let d := c.toNat - '0'.toNat
      if n * 10 + d > maxVal then (maxVal, some (.outOfRange fnc input))
      else parseDigits fnc input maxVal cs (n * 10 + d)
    else (0, some (.malformed fnc input))

/-- Embeds `strconv.ParseUint(s, 10, bitSize)`: no sign allowed, empty
string rejected, range `[0, 2^bitSize - 1]`. -/
def goParseUint (s : String) (bitSize : Nat) : Nat × Option DecErr :=
  match s.data with
  | [] => (0, some (.malformed "ParseUint" s))
  | c :: cs => parseDigits "ParseUint" s (2 ^ bitSize - 1) (c :: cs) 0

/-- Range fences of `strconv.ParseInt` applied after the unsigned parse:
`cutoff = 2^(bitSize-1)`; a non-negative result must be `< cutoff`, a
negated one `≤ cutoff`. -/
def intAfterParse (s : String) (bitSize : Nat) (neg : Bool) (un : Nat) : Int × Option DecErr :=
  let cutoff : Nat := 2 ^ (bitSize - 1)
  if !neg && decide (cutoff ≤ un) then ((cutoff : Int) - 1, some (.outOfRange "ParseInt" s))
  else if neg && decide (cutoff < un) then (-(cutoff : Int), some (.outOfRange "ParseInt" s))
  else (if neg then -(un : Int) else (un : Int), none)

/-- Embeds `strconv.ParseInt(s, 10, bitSize)`: optional leading sign, the
unsigned part parsed at 64 bits (as Go does), then the signed range fences
of `intAfterParse`. -/
def goParseInt (s : String) (bitSize : Nat) : Int × Option DecErr :=
  match s.data with
  | [] => (0, some (.malformed "ParseInt" s))
  | c :: rest =>
    let neg := c = '-'
    let digits := if c = '+' || c = '-' then rest else c :: rest
    match digits with
    | [] => (0, some (.malformed "ParseInt" s))
    | d :: ds =>
      let (un, e) := parseDigits "ParseUint" s (2 ^ 64 - 1) (d :: ds) 0
      match e with
      | none => intAfterParse s bitSize neg un
      | some (.outOfRange _ _) => intAfterParse s bitSize neg un
      | some _ => (0, some (.malformed "ParseInt" s))

/-- Embeds `strconv.ParseBool`: the twelve literal forms it accepts. -/
def goParseBool (raw : String) : Bool × Option DecErr :=
  if raw = "1" ∨ raw = "t" ∨ raw = "T" ∨ raw = "true" ∨ raw = "TRUE" ∨ raw = "True" then
    (true, none)
  else if raw = "0" ∨ raw = "f" ∨ raw = "F" ∨ raw = "false" ∨ raw = "FALSE" ∨ raw = "False" then
    (false, none)
  else (false, some (.malformed "ParseBool" raw))

/-- Embeds `strings.Split(s, ",")` on the character list: split around every
literal comma, preserving every (possibly empty) segment verbatim. -/
def splitComma : List Char → List (List Char)
  | [] => [[]]
  | c :: cs =>
    if c = ',' then [] :: splitComma cs
    else
      match splitComma cs with
      | [] => [[c]]
      | h :: t => (c :: h) :: t

/-- `strings.Split(s, ",")` at the `String` level. -/
def goSplit (s : String) : List String := (splitComma s.data).map fun l => ⟨l⟩

/-- Unicode White_Space property, as used by `unicode.IsSpace`. -/
def goIsSpace (c : Char) : Bool :=
  decide (c.toNat = 0x20) || (decide (0x9 ≤ c.toNat) && decide (c.toNat ≤ 0xD)) ||
  decide (c.toNat = 0x85) || decide (c.toNat = 0xA0) || decide (c.toNat = 0x1680) ||
  (decide (0x2000 ≤ c.toNat) && decide (c.toNat ≤ 0x200A)) ||
  decide (c.toNat = 0x2028) || decide (c.toNat = 0x2029) || decide (c.toNat = 0x202F) ||
  decide (c.toNat = 0x205F) || decide (c.toNat = 0x3000)

/-- Embeds `strings.TrimSpace`: drop leading and trailing white space. -/
def goTrimSpace (s : String) : String :=
  ⟨((s.data.dropWhile goIsSpace).reverse.dropWhile goIsSpace).reverse⟩

/-- ASCII simple case mapping of `strings.ToLower` (the claims' alphabet). -/
def goToLowerChar (c : Char) : Char :=
  if 'A' ≤ c ∧ c ≤ 'Z' then Char.ofNat (c.toNat + 32) else c

/-- `strings.ToLower` on the embedded (ASCII) alphabet. -/
def goToLower (s : String) : String := ⟨s.data.map goToLowerChar⟩

/-- slog.LevelDebug. -/
def levelDebug : Int := -4
/-- slog.LevelInfo. -/
def levelInfo : Int := 0
/-- slog.LevelWarn. -/
def levelWarn : Int := 4
/-- slog.LevelError. -/
def levelError : Int := 8

/-- The `"string"` decoder: identity. -/
def decodeString (raw : String) : Value × Option DecErr := (.str raw, none)

/-- The `"[]uint8"` decoder: the raw UTF-8 bytes of the string. -/
def decodeBytes (raw : String) : Value × Option DecErr :=
  (.bytes (raw.toUTF8.toList.map UInt8.toNat), none)

/-- The `"[]string"` decoder: `strings.Split(raw, ",")`. -/
def decodeStrList (raw : String) : Value × Option DecErr := (.strList (goSplit raw), none)

/-- A signed-integer decoder entry: `strconv.ParseInt(raw, 10, bitSize)`
followed by the (value-preserving) conversion into the field's type. -/
def decodeIntW (bitSize : Nat) (mk : Int → Value) (raw : String) : Value × Option DecErr :=
  let (v, e) := goParseInt raw bitSize
  (mk v, e)

/-- An unsigned-integer decoder entry: `strconv.ParseUint(raw, 10, bitSize)`
followed by the conversion into the field's type. -/
def decodeUintW (bitSize : Nat) (mk : Nat → Value) (raw : String) : Value × Option DecErr :=
  let (v, e) := goParseUint raw bitSize
  (mk v, e)

/-- The `"int"` decoder of the table: ParseInt at 64 bits, then `int(v)`
(the identity on a 64-bit platform). -/
def decodeInt (raw : String) : Value × Option DecErr := decodeIntW 64 .int raw

/-- The `"uint"` decoder of the table: ParseUint at 64 bits, then `uint(v)`. -/
def decodeUint (raw : String) : Value × Option DecErr := decodeUintW 64 .uint raw

/-- The `"bool"` decoder of the table. -/
def decodeBool (raw : String) : Value × Option DecErr :=
  let (b, e) := goParseBool raw
  (.bool b, e)

/-- The `"slog.Level"` decoder: lower-case, trim white space, match the four
level names; anything else is an `invalidLevel` error carrying the raw
input, returned alongside the info default. -/
def decodeSlogLevel (raw : String) : Value × Option DecErr :=
  let k := goTrimSpace (goToLower raw)
  if k = "debug" then (.level levelDebug, none)
  else if k = "warn" then (.level levelWarn, none)
  else if k = "error" then (.level levelError, none)
  else if k = "info" then (.level levelInfo, none)
  else (.level levelInfo, some (.invalidLevel raw))

/-- The decoder table (`decoders` in struct.go), keyed by the Go type name;
the float and time entries fall outside the modelled value universe. -/
def decoders : String → Option (String → Value × Option DecErr)
  | "string" => some decodeString
  | "[]uint8" => some decodeBytes
  | "[]string" => some decodeStrList
  | "int" => some decodeInt
  | "int8" => some (decodeIntW 8 .int8)
  | "int16" => some (decodeIntW 16 .int16)
  | "int32" => some (decodeIntW 32 .int32)
  | "int64" => some (decodeIntW 64 .int64)
  | "uint" => some decodeUint
  | "uint8" => some (decodeUintW 8 .uint8)
  | "uint16" => some (decodeUintW 16 .uint16)
  | "uint32" => some (decodeUintW 32 .uint32)
  | "uint64" => some (decodeUintW 64 .uint64)
  | "bool" => some decodeBool
  | "slog.Level" => some decodeSlogLevel
  | _ => none

/-- Shape of a struct field's Go type, as `ReadStruct` dispatches on
`reflect.Kind`: a scalar, a slice of a scalar, or a pointer to a scalar. -/
inductive FieldType where
  | scalar (n : String)
  | slice (elem : String)
  | ptr (elem : String)
deriving DecidableEq

/-- The decoder-table key derived in `decodeField`: `Type.String()` for a
scalar, the element's name for a pointer, `"[]" ++ elem` for a slice. -/
def FieldType.goTypeName : FieldType → String
  | .scalar n => n
  | .slice e => "[]" ++ e
  | .ptr e => e

/-- The stored contents of a struct field. A pointer cell carries an
allocation identifier (assigned from a counter threaded through
`readFields`), making `reflect.New` allocations observable; `none` is a nil
pointer. -/
inductive FieldVal where
  | scalar (v : Value)
  | slice (elems : List Value)
  | ptr (cell : Option (Nat × Value))
deriving DecidableEq

/-- A struct field as `ReadStruct` sees it: name, raw `env` tag (`""` when
absent), settability (`reflect.Value.CanSet`), type shape and current
value. -/
structure Field where
  name : String
  tag : String
  canSet : Bool
  type : FieldType
  val : FieldVal
deriving DecidableEq

/-- Per-field failure conditions of `decodeField`/`ReadStruct` (without the
field name, which `ReadStruct` attaches when wrapping). -/
inductive FieldErr where
  | unexported
  | noEnvTag
  | required (envName : String)
  | decode (e : DecErr)
  | decodeSliceConvert
  | unsupported (tn : String)
deriving DecidableEq

/-- Errors returned by `ReadStruct`: the two target-shape errors, and any
per-field failure wrapped with the offending field's name. -/
inductive Err where
  | notPtr
  | notStructPtr
  | field (fieldName : String) (e : FieldErr)
deriving DecidableEq

/-- Tag parsing inside `decodeField`: split on comma, first segment is the
variable name, required iff a second segment exists and equals the literal
`"required"`. -/
def parseTag (tag : String) : String × Bool :=
  let parts := goSplit tag
  (parts.headI, decide (1 < parts.length) && decide (parts.getD 1 "" = "required"))

/-- Embeds `decodeField`: signal `noEnvTag` for an absent tag; resolve the
variable through `Read`; when unset return `none` (skip) or the `required`
failure; otherwise look the type's key up in the decoder table and run the
decoder, surfacing its error and discarding its value on failure. -/
def decodeField (env : Environ) (fs : FileSystem) (f : Field) : Except FieldErr (Option Value) :=
  if f.tag = "" then .error .noEnvTag
  else
    let p := parseTag f.tag
    let r := Read env fs p.1
    if r.2 = false then
      if p.2 then .error (.required p.1) else .ok none
    else
      match decoders f.type.goTypeName with
      | none => .error (.unsupported f.type.goTypeName)
      | some dec =>
        match (dec r.1).2 with
        | some de => .error (.decode de)
        | none => .ok (some (dec r.1).1)

/-- View of a decoded value as a Go slice (`reflect.Kind() == Slice`),
yielding its elements. -/
def Value.asSlice : Value → Option (List Value)
  | .strList l => some (l.map .str)
  | .bytes bs => some (bs.map .uint8)
  | _ => none

/-- Placeholder element of a freshly made slice (`reflect.MakeSlice` zeroes
it; the copy loop overwrites every position, so the placeholder is never
observable). -/
def zeroValue : Value := .str ""

/-- The slice branch of `ReadStruct`: allocate a new slice of exactly the
decoded length (`reflect.MakeSlice`), then copy every element across by
index. -/
def copyElems (src : List Value) : List Value :=
  (List.range src.length).foldl (fun dst i => dst.set i (src.getD i zeroValue))
    (List.replicate src.length zeroValue)

/-- Writing one decoded value into a field, per the kind switch of
`ReadStruct`: slices are rebuilt via `copyElems` (failing when the decoded
value is not a slice); pointers allocate a fresh cell only when nil, then
write the pointee; scalars are assigned directly. Returns the updated field
and the allocation counter. -/
def setField (f : Field) (decoded : Value) (cellCtr : Nat) : Except Err (Field × Nat) :=
  match f.type with
  | .slice _ =>
    match decoded.asSlice with
    | none => .error (.field f.name .decodeSliceConvert)
    | some elems => .ok ({ f with val := .slice (copyElems elems) }, cellCtr)
  | .ptr _ =>
    match f.val with
    | .ptr (some (id, _)) => .ok ({ f with val := .ptr (some (id, decoded)) }, cellCtr)
    | _ => .ok ({ f with val := .ptr (some (cellCtr, decoded)) }, cellCtr + 1)
  | .scalar _ => .ok ({ f with val := .scalar decoded }, cellCtr)

/-- Outcome of `ReadStruct`'s loop body on a single field. -/
inductive StepRes where
  | fail (e : Err)
  | skip
  | assigned (f : Field) (nextCell : Nat)
deriving DecidableEq

/-- One iteration of `ReadStruct`'s field loop: unsettable fields fail with
`unexported`; a missing tag or an unset optional variable skips the field;
decode failures are wrapped with the field name; otherwise the decoded
value is written via `setField`. -/
def stepField (env : Environ) (fs : FileSystem) (cellCtr : Nat) (f : Field) : StepRes :=
  if f.canSet = false then .fail (.field f.name .unexported)
  else
    match decodeField env fs f with
    | .error .noEnvTag => .skip
    | .error e => .fail (.field f.name e)
    | .ok none => .skip
    | .ok (some v) =>
      match setField f v cellCtr with
      | .error e => .fail e
      | .ok (f', c') => .assigned f' c'

/-- The field loop of `ReadStruct`: process fields in declaration order,
halting at the first failure; returns the (partially updated) fields, the
final allocation counter and the error, if any. -/
def readFields (env : Environ) (fs : FileSystem) : Nat → List Field → List Field × Nat × Option Err
  | c, [] => ([], c, none)
  | c, f :: rest =>
    match stepField env fs c f with
    | .fail e => (f :: rest, c, some e)
    | .skip =>
      let r := readFields env fs c rest
      (f :: r.1, r.2.1, r.2.2)
    | .assigned f' c2 =>
      let r := readFields env fs c2 rest
      (f' :: r.1, r.2.1, r.2.2)

/-- What a pointer passed to `ReadStruct` points at. -/
inductive Pointee where
  | structP (fields : List Field)
  | otherP (v : Value)
deriving DecidableEq

/-- A dynamic (`any`) argument to `ReadStruct`: either a value whose
reflect kind is not `Ptr` (including the nil interface), or a pointer,
possibly nil. -/
inductive GoValue where
  | nonPtr (v : Value)
  | ptrV (target : Option Pointee)
deriving DecidableEq

/-- Embeds `ReadStruct`: reject non-pointers and nil pointers with
`notPtr`, pointers to non-structs with `notStructPtr`, and otherwise run
the field loop, returning the updated structure and its error. -/
def ReadStruct (env : Environ) (fs : FileSystem) : GoValue → GoValue × Option Err
  | .nonPtr x => (.nonPtr x, some .notPtr)
  | .ptrV none => (.ptrV none, some .notPtr)
  | .ptrV (some (.otherP x)) => (.ptrV (some (.otherP x)), some .notStructPtr)
  | .ptrV (some (.structP fields)) =>
    let r := readFields env fs 0 fields
    (.ptrV (some (.structP r.1)), r.2.2)

end Env

namespace Env

/-- C1: resolution order and failure swallowing of `Read`: a set variable
(even empty) wins and the `_FILE` companion is never consulted; otherwise a
successful read of the `_FILE` path returns its contents verbatim; in every
other case (`_FILE` unset, empty, or the read failing) the result is
`("", false)`. -/
theorem read_resolves_direct_then_file (env : Environ) (fs : FileSystem) (key : String) :
    (∀ v, env key = some v → ∀ fs2 : FileSystem, Read env fs2 key = (v, true)) ∧
    (∀ path c, env key = none → env (key ++ "_FILE") = some path →
      fs.read path = some c → Read env fs key = (c, true)) ∧
    (env key = none → env (key ++ "_FILE") = none → Read env fs key = ("", false)) ∧
    (env key = none → env (key ++ "_FILE") = some "" → Read env fs key = ("", false)) ∧
    (∀ path, env key = none → env (key ++ "_FILE") = some path →
      fs.read path = none → Read env fs key = ("", false)) := by
  refine ⟨?_, ?_, ?_, ?_, ?_⟩
  · intro v hv fs2
    simp [Read, hv]
  · intro path c h1 h2 h3
    simp [Read, h1, h2, h3]
  · intro h1 h2
    simp [Read, h1, h2]
  · intro h1 h2
    simp [Read, h1, h2, fs.read_empty]
  · intro path h1 h2 h3
    simp [Read, h1, h2, h3]

/-- Witness for C1 at concrete environments. -/
theorem read_resolves_direct_then_file_witness :
    Read (fun k => if k = "K" then some "" else none) fsEmpty "K" = ("", true) ∧
    Read (fun k => if k = "K_FILE" then some "/s" else none)
      (fsOne "/s" "c\n" (by decide)) "K" = ("c\n", true) ∧
    Read (fun k => if k = "K_FILE" then some "/missing" else none) fsEmpty "K" = ("", false) := by
  refine ⟨?_, ?_, ?_⟩
  · exact (read_resolves_direct_then_file (fun k => if k = "K" then some "" else none)
      fsEmpty "K").1 "" (by decide) fsEmpty
  · exact (read_resolves_direct_then_file (fun k => if k = "K_FILE" then some "/s" else none)
      (fsOne "/s" "c\n" (by decide)) "K").2.1 "/s" "c\n" (by decide) (by decide)
      (by simp [fsOne])
  · exact (read_resolves_direct_then_file (fun k => if k = "K_FILE" then some "/missing" else none)
      fsEmpty "K").2.2.2.2 "/missing" (by decide) (by decide) rfl

end Env

namespace Env

/-- An environment with no variables set. -/
def envNone : Environ := fun _ => none

/-- C9: a non-pointer argument (including the nil interface) and a nil
pointer fail with `notPtr`, and a non-nil pointer to a non-struct fails
with `notStructPtr`, in every case with the argument untouched (no field is
processed). -/
theorem readStruct_rejects_invalid_target (env : Environ) (fs : FileSystem) :
    (∀ x, ReadStruct env fs (.nonPtr x) = (.nonPtr x, some .notPtr)) ∧
    ReadStruct env fs (.ptrV none) = (.ptrV none, some .notPtr) ∧
    (∀ x, ReadStruct env fs (.ptrV (some (.otherP x))) =
      (.ptrV (some (.otherP x)), some .notStructPtr)) :=
  ⟨fun _ => rfl, rfl, fun _ => rfl⟩

/-- An unexported (unsettable) field carrying no `env` tag. -/
def hiddenField : Field :=
  { name := "secret", tag := "", canSet := false,
    type := .scalar "string", val := .scalar (.str "") }

/-- C2 counterexample: an unsettable field whose annotation is absent is
not skipped — `ReadStruct` fails with the unexported error, because the
settability check runs before the tag check. -/
theorem readStruct_fails_on_untagged_unexported_field :
    hiddenField.tag = "" ∧
    ReadStruct envNone fsEmpty (.ptrV (some (.structP [hiddenField]))) =
      (.ptrV (some (.structP [hiddenField])), some (.field "secret" .unexported)) :=
  ⟨rfl, rfl⟩

/-- C2 (amended): for every settable field whose annotation is absent or
empty, the field is skipped entirely — left unchanged, contributing no
error and no allocation — and processing continues with the next field. -/
theorem readStruct_skips_untagged_settable_field (env : Environ) (fs : FileSystem) (c : Nat)
    (f : Field) (rest : List Field) (hset : f.canSet = true) (htag : f.tag = "") :
    readFields env fs c (f :: rest) =
      (f :: (readFields env fs c rest).1, (readFields env fs c rest).2.1,
        (readFields env fs c rest).2.2) := by
  have hstep : stepField env fs c f = .skip := by
    simp [stepField, hset, decodeField, htag]
  simp [readFields, hstep]

/-- Witness for C2's amended theorem at a concrete settable untagged
field. -/
theorem readStruct_skips_untagged_settable_field_witness :
    readFields envNone fsEmpty 0
        [{ name := "A", tag := "", canSet := true,
           type := .scalar "string", val := .scalar (.str "x") }] =
      ([{ name := "A", tag := "", canSet := true,
          type := .scalar "string", val := .scalar (.str "x") }], 0, none) := by
  have h := readStruct_skips_untagged_settable_field envNone fsEmpty 0
    { name := "A", tag := "", canSet := true,
      type := .scalar "string", val := .scalar (.str "x") } [] rfl rfl
  simpa using h

end Env

namespace Env

/-- Helper: `setField` fails only with the decode-to-slice error wrapped
with the field's own name. -/
theorem setField_error_name (f : Field) (v : Value) (c : Nat) (e : Err)
    (h : setField f v c = .error e) : e = .field f.name .decodeSliceConvert := by
  cases ht : f.type with
  | slice el =>
    cases hs : v.asSlice with
    | none => simp [setField, ht, hs] at h; exact h.symm
    | some elems => simp [setField, ht, hs] at h
  | ptr el =>
    cases hv : f.val <;> simp [setField, ht, hv] at h
    case ptr cell => cases cell with
      | none => simp [setField, ht, hv] at h
      | some p => simp [setField, ht, hv] at h
  | scalar n => simp [setField, ht] at h

/-- Helper: every failure of `stepField` is wrapped with the offending
field's name. -/
theorem stepField_fail_name (env : Environ) (fs : FileSystem) (c : Nat) (f : Field) (e : Err)
    (h : stepField env fs c f = .fail e) : ∃ fe, e = Err.field f.name fe := by
  unfold stepField at h
  by_cases hc : f.canSet = false
  · simp [hc] at h
    exact ⟨.unexported, h.symm⟩
  · simp [hc] at h
    cases hd : decodeField env fs f with
    | error fe =>
      cases fe <;> simp [hd] at h <;> exact ⟨_, h.symm⟩
    | ok ov =>
      cases ov with
      | none => simp [hd] at h
      | some v =>
        simp [hd] at h
        cases hsf : setField f v c with
        | error e2 =>
          simp [hsf] at h
          exact ⟨.decodeSliceConvert, by rw [← h, setField_error_name f v c e2 hsf]⟩
        | ok p => simp [hsf] at h

/-- Helper: when a prefix of the field list processes without error, the
whole list processes as that prefix's result followed by the rest,
continuing from the prefix's final allocation counter. -/
theorem readFields_append_of_ok (env : Environ) (fs : FileSystem) (rest : List Field) :
    ∀ (pre : List Field) (c c' : Nat) (pre' : List Field),
      readFields env fs c pre = (pre', c', none) →
      readFields env fs c (pre ++ rest) =
        (pre' ++ (readFields env fs c' rest).1, (readFields env fs c' rest).2.1,
          (readFields env fs c' rest).2.2) := by
  intro pre
  induction pre with
  | nil =>
    intro c c' pre' h
    simp [readFields] at h
    obtain ⟨h1, h2⟩ := h
    subst h1; subst h2
    simp
  | cons f pre ih =>
    intro c c' pre' h
    cases hs : stepField env fs c f with
    | fail e => simp [readFields, hs] at h
    | skip =>
      rcases hr : readFields env fs c pre with ⟨a, b, o⟩
      simp [readFields, hs, hr] at h
      obtain ⟨h1, h2, h3⟩ := h
      subst h1; subst h2; subst h3
      have := ih c b a hr
      simp [readFields, hs, this]
    | assigned f2 c2 =>
      rcases hr : readFields env fs c2 pre with ⟨a, b, o⟩
      simp [readFields, hs, hr] at h
      obtain ⟨h1, h2, h3⟩ := h
      subst h1; subst h2; subst h3
      have := ih c2 b a hr
      simp [readFields, hs, this]

/-- C3: population halts on the first failing field, returning that failure
wrapped with the offending field's name; fields processed before the
failure keep their assigned values, the failing field keeps its pre-call
value, and every later field is untouched. -/
theorem readStruct_halts_on_first_failure (env : Environ) (fs : FileSystem)
    (pre : List Field) (f : Field) (post : List Field) (pre' : List Field) (c' : Nat) (e : Err)
    (hpre : readFields env fs 0 pre = (pre', c', none))
    (hf : stepField env fs c' f = .fail e) :
    ReadStruct env fs (.ptrV (some (.structP (pre ++ f :: post)))) =
      (.ptrV (some (.structP (pre' ++ f :: post))), some e) ∧
    ∃ fe, e = Err.field f.name fe := by
  constructor
  · have happ := readFields_append_of_ok env fs (f :: post) pre 0 c' pre' hpre
    simp [ReadStruct, happ, readFields, hf]
  · exact stepField_fail_name env fs c' f e hf

end Env

namespace Env

/-- Helper: folding index-wise writes of `src` over `0..n-1` into `dst`
yields the first `n` elements of `src` followed by the tail of `dst`. -/
theorem foldl_set_section (src : List Value) :
    ∀ (n : Nat) (dst : List Value), n ≤ src.length → src.length = dst.length →
      (List.range n).foldl (fun d i => d.set i (src.getD i zeroValue)) dst =
        src.take n ++ dst.drop n := by
  intro n
  induction n with
  | zero => intro dst _ _; simp
  | succ n ih =>
    intro dst hn hlen
    rw [List.range_succ, List.foldl_append, ih dst (by omega) hlen]
    simp only [List.foldl_cons, List.foldl_nil]
    have hns : n < src.length := by omega
    have hlt : n < (src.take n ++ dst.drop n).length := by
      simp only [List.length_append, List.length_take, List.length_drop]
      omega
    rw [List.set_eq_take_cons_drop _ hlt]
    have htk : (src.take n).length = n := by
      simp only [List.length_take]
      omega
    have h1 : (src.take n ++ dst.drop n).take n = src.take n := List.take_left' htk
    have h2 : (src.take n ++ dst.drop n).drop (n + 1) = dst.drop (n + 1) := by
      conv_lhs => rw [show n + 1 = (src.take n).length + 1 by omega]
      rw [List.drop_append, List.drop_drop]
    rw [h1, h2, List.getD_eq_getElem src zeroValue hns]
    rw [List.take_succ, List.getElem?_eq_getElem hns, List.append_assoc]
    rfl

/-- Helper: the MakeSlice-then-copy loop reproduces exactly the decoded
elements. -/
theorem copyElems_eq (src : List Value) : copyElems src = src := by
  unfold copyElems
  rw [foldl_set_section src src.length (List.replicate src.length zeroValue) le_rfl (by simp)]
  simp

/-- C4: when a slice field's variable resolves and its value decodes to a
sequence, the field is replaced by a freshly built sequence equal to
exactly the decoded elements — sized to the decoded length, every element
copied, nothing of the pre-call contents surviving. -/
theorem readStruct_replaces_slice_contents (env : Environ) (fs : FileSystem) (c : Nat)
    (f : Field) (el : String) (v : Value) (elems : List Value)
    (hset : f.canSet = true) (hty : f.type = .slice el)
    (hd : decodeField env fs f = .ok (some v)) (hs : v.asSlice = some elems) :
    stepField env fs c f = .assigned { f with val := .slice elems } c := by
  simp [stepField, hset, hd, setField, hty, hs, copyElems_eq]

/-- Environment for the slice-replacement witness. -/
def envTags : Environ := fun k => if k = "TAGS" then some "new,values" else none

/-- A `[]string` field holding six pre-call elements. -/
def fldTags : Field :=
  { name := "Tags", tag := "TAGS", canSet := true, type := .slice "string",
    val := .slice [.str "existing", .str "values", .str "that", .str "should",
      .str "be", .str "replaced"] }

/-- Witness for C4: the six pre-call elements are replaced by exactly the
two decoded ones. -/
theorem readStruct_replaces_slice_contents_witness :
    stepField envTags fsEmpty 0 fldTags =
      .assigned { fldTags with val := .slice [.str "new", .str "values"] } 0 :=
  readStruct_replaces_slice_contents envTags fsEmpty 0 fldTags "string"
    (.strList ["new", "values"]) [.str "new", .str "values"] rfl rfl rfl rfl

end Env

namespace Env

/-- Environment for the halt-on-first-failure witness. -/
def envA : Environ := fun k => if k = "A_VAR" then some "va" else none

/-- Witness for C3: the first field is assigned, the second (required,
unset) fails with its name attached, the third is untouched. -/
theorem readStruct_halts_on_first_failure_witness :
    ReadStruct envA fsEmpty (.ptrV (some (.structP
        ([{ name := "A", tag := "A_VAR", canSet := true,
            type := .scalar "string", val := .scalar (.str "old") }] ++
          { name := "B", tag := "B_VAR,required", canSet := true,
            type := .scalar "string", val := .scalar (.str "pre") } ::
          [{ name := "C", tag := "C_VAR", canSet := true,
             type := .scalar "string", val := .scalar (.str "c0") }])))) =
      (.ptrV (some (.structP
        ([{ name := "A", tag := "A_VAR", canSet := true,
            type := .scalar "string", val := .scalar (.str "va") }] ++
          { name := "B", tag := "B_VAR,required", canSet := true,
            type := .scalar "string", val := .scalar (.str "pre") } ::
          [{ name := "C", tag := "C_VAR", canSet := true,
             type := .scalar "string", val := .scalar (.str "c0") }]))),
       some (.field "B" (.required "B_VAR"))) :=
  (readStruct_halts_on_first_failure envA fsEmpty
    [{ name := "A", tag := "A_VAR", canSet := true,
       type := .scalar "string", val := .scalar (.str "old") }]
    { name := "B", tag := "B_VAR,required", canSet := true,
      type := .scalar "string", val := .scalar (.str "pre") }
    [{ name := "C", tag := "C_VAR", canSet := true,
       type := .scalar "string", val := .scalar (.str "c0") }]
    [{ name := "A", tag := "A_VAR", canSet := true,
       type := .scalar "string", val := .scalar (.str "va") }]
    0 (.field "B" (.required "B_VAR")) rfl rfl).1

/-- C5: a not-required binding whose variable does not resolve leaves the
field at exactly its pre-call value with no allocation at all and no
error; when a pointer field's variable resolves and decodes, a fresh cell
is allocated only if the field was nil, otherwise the decoded value is
written into the already-existing cell. -/
theorem readStruct_optional_frame (env : Environ) (fs : FileSystem) (c : Nat) (f : Field) :
    (∀ rest, f.canSet = true → f.tag ≠ "" → (parseTag f.tag).2 = false →
      (Read env fs (parseTag f.tag).1).2 = false →
      readFields env fs c (f :: rest) =
        (f :: (readFields env fs c rest).1, (readFields env fs c rest).2.1,
          (readFields env fs c rest).2.2)) ∧
    (∀ el v, f.canSet = true → f.type = .ptr el →
      decodeField env fs f = .ok (some v) →
      (f.val = .ptr none →
        stepField env fs c f = .assigned { f with val := .ptr (some (c, v)) } (c + 1)) ∧
      (∀ id old, f.val = .ptr (some (id, old)) →
        stepField env fs c f = .assigned { f with val := .ptr (some (id, v)) } c)) := by
  constructor
  · intro rest hset htag hreq hread
    have hstep : stepField env fs c f = .skip := by
      simp [stepField, hset, decodeField, htag, hreq, hread]
    simp [readFields, hstep]
  · intro el v hset hty hd
    constructor
    · intro hnil
      simp [stepField, hset, hd, setField, hty, hnil]
    · intro id old hcell
      simp [stepField, hset, hd, setField, hty, hcell]

/-- Environment for the optional/pointer witness. -/
def envP : Environ := fun k => if k = "P_VAR" then some "pv" else none

/-- A nil pointer field bound to `P_VAR`. -/
def fldPNil : Field :=
  { name := "P", tag := "P_VAR", canSet := true, type := .ptr "string", val := .ptr none }

/-- A pointer field bound to `P_VAR` whose cell (id 5) already exists. -/
def fldPSome : Field :=
  { name := "P", tag := "P_VAR", canSet := true, type := .ptr "string",
    val := .ptr (some (5, .str "old")) }

/-- An optional field bound to an unset variable. -/
def fldOpt : Field :=
  { name := "O", tag := "OPT_VAR", canSet := true, type := .scalar "string",
    val := .scalar (.str "keep") }

/-- Witness for C5: the unset optional field stays untouched with the
counter unchanged; the nil pointer field gets a fresh cell; the non-nil
pointer field keeps its cell id and is overwritten in place. -/
theorem readStruct_optional_frame_witness :
    readFields envNone fsEmpty 0 [fldOpt] = ([fldOpt], 0, none) ∧
    stepField envP fsEmpty 0 fldPNil =
      .assigned { fldPNil with val := .ptr (some (0, .str "pv")) } 1 ∧
    stepField envP fsEmpty 0 fldPSome =
      .assigned { fldPSome with val := .ptr (some (5, .str "pv")) } 0 := by
  refine ⟨?_, ?_, ?_⟩
  · have h := (readStruct_optional_frame envNone fsEmpty 0 fldOpt).1 []
      rfl (by decide) rfl rfl
    simpa [readFields] using h
  · exact ((readStruct_optional_frame envP fsEmpty 0 fldPNil).2 "string" (.str "pv")
      rfl rfl rfl).1 rfl
  · exact ((readStruct_optional_frame envP fsEmpty 0 fldPSome).2 "string" (.str "pv")
      rfl rfl rfl).2 5 (.str "old") rfl

end Env

namespace Env

/-- C6: the log-level decoder matches case-insensitively against the four
level names after trimming surrounding white space; any other input yields
the invalid-level error carrying the exact raw string alongside the info
default; and through population the error wins — the failure is surfaced
wrapping the decoder error and the field keeps its pre-call value. -/
theorem slogLevel_decoder_spec :
    (∀ raw, goTrimSpace (goToLower raw) = "debug" →
      decodeSlogLevel raw = (.level levelDebug, none)) ∧
    (∀ raw, goTrimSpace (goToLower raw) = "warn" →
      decodeSlogLevel raw = (.level levelWarn, none)) ∧
    (∀ raw, goTrimSpace (goToLower raw) = "error" →
      decodeSlogLevel raw = (.level levelError, none)) ∧
    (∀ raw, goTrimSpace (goToLower raw) = "info" →
      decodeSlogLevel raw = (.level levelInfo, none)) ∧
    (∀ raw, goTrimSpace (goToLower raw) ≠ "debug" → goTrimSpace (goToLower raw) ≠ "warn" →
      goTrimSpace (goToLower raw) ≠ "error" → goTrimSpace (goToLower raw) ≠ "info" →
      decodeSlogLevel raw = (.level levelInfo, some (.invalidLevel raw))) ∧
    (∀ env fs c f rest raw de,
      f.canSet = true → f.type = .scalar "slog.Level" → f.tag ≠ "" →
      Read env fs (parseTag f.tag).1 = (raw, true) →
      (decodeSlogLevel raw).2 = some de →
      readFields env fs c (f :: rest) = (f :: rest, c, some (.field f.name (.decode de)))) := by
  have hD : decoders "slog.Level" = some decodeSlogLevel := rfl
  refine ⟨?_, ?_, ?_, ?_, ?_, ?_⟩
  · intro raw h
    simp [decodeSlogLevel, h]
  · intro raw h
    simp [decodeSlogLevel, h]
  · intro raw h
    simp [decodeSlogLevel, h]
  · intro raw h
    simp [decodeSlogLevel, h]
  · intro raw h1 h2 h3 h4
    simp [decodeSlogLevel, h1, h2, h3, h4]
  · intro env fs c f rest raw de hset hty htag hread hdec
    have hdf : decodeField env fs f = .error (.decode de) := by
      simp [decodeField, htag, hread, hty, FieldType.goTypeName, hD, hdec]
    have hstep : stepField env fs c f = .fail (.field f.name (.decode de)) := by
      simp [stepField, hset, hdf]
    simp [readFields, hstep]

/-- Environment for the log-level witness. -/
def envL : Environ := fun k => if k = "LVL" then some "bad" else none

/-- A `slog.Level` field bound to `LVL`. -/
def fldL : Field :=
  { name := "L", tag := "LVL", canSet := true, type := .scalar "slog.Level",
    val := .scalar (.level 0) }

/-- Witness for C6: a padded upper-case name decodes; an unrecognized value
surfaces the invalid-level error through population with the field left
unchanged. -/
theorem slogLevel_decoder_spec_witness :
    decodeSlogLevel " WARN " = (.level levelWarn, none) ∧
    decodeSlogLevel "bad" = (.level levelInfo, some (.invalidLevel "bad")) ∧
    readFields envL fsEmpty 0 [fldL] =
      ([fldL], 0, some (.field "L" (.decode (.invalidLevel "bad")))) := by
  refine ⟨?_, ?_, ?_⟩
  · exact slogLevel_decoder_spec.2.1 " WARN " (by decide)
  · exact slogLevel_decoder_spec.2.2.2.2.1 "bad" (by decide) (by decide) (by decide) (by decide)
  · exact slogLevel_decoder_spec.2.2.2.2.2 envL (fsEmpty) 0 fldL [] "bad"
      (.invalidLevel "bad") rfl rfl (by decide) rfl rfl

end Env

namespace Env

/-- Helper: splitting never yields an empty list of segments. -/
theorem splitComma_ne_nil (cs : List Char) : splitComma cs ≠ [] := by
  induction cs with
  | nil => simp [splitComma]
  | cons c cs ih =>
    by_cases h : c = ','
    · simp [splitComma, h]
    · simp only [splitComma, if_neg h]
      cases hs : splitComma cs with
      | nil => simp
      | cons a t => simp

/-- Specification-side joiner: reinsert a comma between the segments. -/
def joinComma : List (List Char) → List Char
  | [] => []
  | [p] => p
  | p :: ps => p ++ ',' :: joinComma ps

/-- Helper: the segments reassemble to the exact input — splitting is on
the literal comma and trims nothing. -/
theorem joinComma_splitComma (cs : List Char) : joinComma (splitComma cs) = cs := by
  induction cs with
  | nil => simp [splitComma, joinComma]
  | cons c cs ih =>
    by_cases h : c = ','
    · subst h
      simp only [splitComma, if_pos rfl]
      cases hs : splitComma cs with
      | nil => exact absurd hs (splitComma_ne_nil cs)
      | cons a t =>
        rw [hs] at ih
        simp [joinComma, ih]
    · simp only [splitComma, if_neg h]
      cases hs : splitComma cs with
      | nil => exact absurd hs (splitComma_ne_nil cs)
      | cons a t =>
        rw [hs] at ih
        cases t with
        | nil =>
          simp [joinComma] at ih ⊢
          simp [ih]
        | cons b t2 =>
          simp [joinComma] at ih ⊢
          simp [ih]

/-- Helper: no segment of the split contains a comma. -/
theorem splitComma_parts_no_comma (cs : List Char) : ∀ p ∈ splitComma cs, ',' ∉ p := by
  induction cs with
  | nil =>
    intro p hp
    simp [splitComma] at hp
    subst hp
    simp
  | cons c cs ih =>
    intro p hp
    by_cases h : c = ','
    · simp [splitComma, h] at hp
      rcases hp with hp | hp
      · subst hp; simp
      · exact ih p hp
    · simp only [splitComma, if_neg h] at hp
      cases hs : splitComma cs with
      | nil => exact absurd hs (splitComma_ne_nil cs)
      | cons a t =>
        rw [hs] at hp
        simp only [List.mem_cons] at hp
        rcases hp with hp | hp
        · subst hp
          have ha : ',' ∉ a := ih a (by rw [hs]; exact List.mem_cons_self a t)
          simp only [List.mem_cons]
          rintro (hc | hc)
          · exact h hc.symm
          · exact ha hc
        · exact ih p (by rw [hs]; exact List.mem_cons_of_mem a hp)

/-- C7: the string-sequence decoder splits on the literal comma with no
trimming (the segments contain no comma and reassemble to the exact
input), the empty input yields the one-element sequence containing the
empty string, and a `[]string` field bound to a variable set to the empty
string is assigned exactly that one-element sequence. -/
theorem strList_decoder_spec :
    (∀ raw : String, decodeStrList raw = (.strList ((splitComma raw.data).map fun l => ⟨l⟩), none) ∧
      joinComma (splitComma raw.data) = raw.data ∧
      ∀ p ∈ splitComma raw.data, ',' ∉ p) ∧
    decodeStrList "" = (.strList [""], none) ∧
    (∀ env fs c f, f.canSet = true → f.type = .slice "string" → f.tag ≠ "" →
      Read env fs (parseTag f.tag).1 = ("", true) →
      stepField env fs c f = .assigned { f with val := .slice [.str ""] } c) := by
  have hD : decoders "[]string" = some decodeStrList := rfl
  refine ⟨?_, ?_, ?_⟩
  · intro raw
    exact ⟨rfl, joinComma_splitComma raw.data, splitComma_parts_no_comma raw.data⟩
  · rfl
  · intro env fs c f hset hty htag hread
    have hdf : decodeField env fs f = .ok (some (.strList [""])) := by
      simp [decodeField, htag, hread, hty, FieldType.goTypeName, hD]
      rfl
    have hv : Value.asSlice (.strList [""]) = some [.str ""] := rfl
    exact readStruct_replaces_slice_contents env fs c f "string" (.strList [""])
      [.str ""] hset hty hdf hv

end Env

namespace Env

/-- Environment for the empty-string sequence witness. -/
def envS : Environ := fun k => if k = "S" then some "" else none

/-- A `[]string` field bound to `S` with pre-call contents. -/
def fldS : Field :=
  { name := "S", tag := "S", canSet := true, type := .slice "string",
    val := .slice [.str "x", .str "y", .str "z"] }

/-- Witness for C7: a sequence field bound to a variable set to the empty
string is assigned exactly the one-element sequence containing it. -/
theorem strList_decoder_spec_witness :
    stepField envS fsEmpty 0 fldS = .assigned { fldS with val := .slice [.str ""] } 0 :=
  strList_decoder_spec.2.2 envS fsEmpty 0 fldS rfl rfl (by decide) rfl

/-- Helper: a comma-free list splits into the single segment holding it. -/
theorem splitComma_no_comma (cs : List Char) (h : ',' ∉ cs) : splitComma cs = [cs] := by
  induction cs with
  | nil => simp [splitComma]
  | cons c t ih =>
    have hc : c ≠ ',' := by
      intro he
      exact h (by rw [he]; exact List.mem_cons_self ',' t)
    have ht : ',' ∉ t := fun hm => h (List.mem_cons_of_mem c hm)
    simp [splitComma, hc, ih ht]

/-- Helper: splitting around the first comma when the head segment is
comma-free. -/
theorem splitComma_append (a b : List Char) (h : ',' ∉ a) :
    splitComma (a ++ ',' :: b) = a :: splitComma b := by
  induction a with
  | nil => simp [splitComma]
  | cons c t ih =>
    have hc : c ≠ ',' := by
      intro he
      exact h (by rw [he]; exact List.mem_cons_self ',' t)
    have ht : ',' ∉ t := fun hm => h (List.mem_cons_of_mem c hm)
    show splitComma (c :: (t ++ ',' :: b)) = _
    rw [splitComma, if_neg hc, ih ht]

/-- C8: a non-empty annotation splits on comma; the first segment is the
variable name and the field is required exactly when the second segment
equals the literal `"required"` (no whitespace trimming); a lone segment
is never required; and an unrecognized second segment is silently ignored,
never an error. -/
theorem tag_required_parse (a b : List Char) (ha : ',' ∉ a) (hb : ',' ∉ b) :
    parseTag ⟨a ++ ',' :: b⟩ = (⟨a⟩, decide ((⟨b⟩ : String) = "required")) ∧
    parseTag ⟨a⟩ = (⟨a⟩, false) ∧
    (∀ env fs f, f.canSet = true → f.tag = ⟨a ++ ',' :: b⟩ →
      (⟨b⟩ : String) ≠ "required" → (Read env fs ⟨a⟩).2 = false →
      decodeField env fs f = .ok none) := by
  have hsplit2 : goSplit ⟨a ++ ',' :: b⟩ = [(⟨a⟩ : String), ⟨b⟩] := by
    show ((splitComma (a ++ ',' :: b)).map fun l => (⟨l⟩ : String)) = _
    rw [splitComma_append a b ha, splitComma_no_comma b hb]
    rfl
  have hsplit1 : goSplit ⟨a⟩ = [(⟨a⟩ : String)] := by
    show ((splitComma a).map fun l => (⟨l⟩ : String)) = _
    rw [splitComma_no_comma a ha]
    rfl
  have hp2 : parseTag ⟨a ++ ',' :: b⟩ = (⟨a⟩, decide ((⟨b⟩ : String) = "required")) := by
    simp [parseTag, hsplit2]
  have hne : (⟨a ++ ',' :: b⟩ : String) ≠ "" := by
    intro he
    have hdata := congrArg String.data he
    simp at hdata
  refine ⟨hp2, ?_, ?_⟩
  · simp [parseTag, hsplit1]
  · intro env fs f hset hftag hbreq hread
    have hreq : (parseTag f.tag).2 = false := by
      rw [hftag, hp2]
      simp [hbreq]
    have hname : (parseTag f.tag).1 = ⟨a⟩ := by
      rw [hftag, hp2]
    have htagne : f.tag ≠ "" := by rw [hftag]; exact hne
    simp [decodeField, htagne, hreq, hname, hread]

/-- Witness for C8: `"NAME,required"` is required, while `"NAME, required"`
(with a space) and `"NAME,foo"` are not. -/
theorem tag_required_parse_witness :
    parseTag "NAME,required" = ("NAME", true) ∧
    parseTag "NAME, required" = ("NAME", false) ∧
    parseTag "NAME,foo" = ("NAME", false) := by
  refine ⟨?_, ?_, ?_⟩
  · have h := (tag_required_parse "NAME".data "required".data (by decide) (by decide)).1
    simpa using h
  · have h := (tag_required_parse "NAME".data " required".data (by decide) (by decide)).1
    simpa using h
  · have h := (tag_required_parse "NAME".data "foo".data (by decide) (by decide)).1
    simpa using h

end Env

namespace Env

/-- Base-10 value of a digit string (specification-side). -/
def digitsVal (cs : List Char) : Nat :=
  cs.foldl (fun a c => a * 10 + (c.toNat - '0'.toNat)) 0

/-- Helper: the digit fold from accumulator `n` shifts `n` past the whole
string. -/
theorem digitsVal_shift (cs : List Char) :
    ∀ n : Nat, cs.foldl (fun a c => a * 10 + (c.toNat - '0'.toNat)) n =
      n * 10 ^ cs.length + digitsVal cs := by
  induction cs with
  | nil => intro n; simp [digitsVal]
  | cons c cs ih =>
    intro n
    have hcons : digitsVal (c :: cs) =
        (c.toNat - '0'.toNat) * 10 ^ cs.length + digitsVal cs := by
      show cs.foldl (fun a x => a * 10 + (x.toNat - '0'.toNat)) (0 * 10 + (c.toNat - '0'.toNat)) = _
      rw [ih]
      simp
    simp only [List.foldl_cons]
    rw [ih (n * 10 + (c.toNat - '0'.toNat)), hcons, List.length_cons]
    ring

/-- Helper: prepending a digit scales by the remaining length. -/
theorem digitsVal_cons (c : Char) (cs : List Char) :
    digitsVal (c :: cs) = (c.toNat - '0'.toNat) * 10 ^ cs.length + digitsVal cs := by
  show cs.foldl (fun a x => a * 10 + (x.toNat - '0'.toNat)) (0 * 10 + (c.toNat - '0'.toNat)) = _
  rw [digitsVal_shift]
  simp

/-- Helper: the shifted total dominates the accumulator. -/
theorem le_digitsVal_shift (cs : List Char) (n : Nat) :
    n ≤ n * 10 ^ cs.length + digitsVal cs := by
  have h10 : 1 ≤ 10 ^ cs.length := Nat.one_le_pow _ _ (by norm_num)
  calc n = n * 1 := (mul_one n).symm
    _ ≤ n * 10 ^ cs.length := Nat.mul_le_mul (le_refl n) h10
    _ ≤ n * 10 ^ cs.length + digitsVal cs := Nat.le_add_right _ _

/-- Helper: the ParseUint digit loop succeeds with the base-10 value
whenever every character is a digit and the shifted total fits below
`maxVal`. -/
theorem parseDigits_ok (fnc inp : String) (maxVal : Nat) :
    ∀ (cs : List Char) (n : Nat), (∀ c ∈ cs, c.isDigit = true) →
      n * 10 ^ cs.length + digitsVal cs ≤ maxVal →
      parseDigits fnc inp maxVal cs n = (n * 10 ^ cs.length + digitsVal cs, none) := by
  intro cs
  induction cs with
  | nil => intro n _ _; simp [parseDigits, digitsVal]
  | cons c cs ih =>
    intro n hd hle
    have hcd : c.isDigit = true := hd c (List.mem_cons_self c cs)
    have htotal : n * 10 ^ (c :: cs).length + digitsVal (c :: cs) =
        (n * 10 + (c.toNat - '0'.toNat)) * 10 ^ cs.length + digitsVal cs := by
      rw [digitsVal_cons, List.length_cons]
      ring
    have hle2 : (n * 10 + (c.toNat - '0'.toNat)) * 10 ^ cs.length + digitsVal cs ≤ maxVal := by
      rw [← htotal]; exact hle
    have hstep : n * 10 + (c.toNat - '0'.toNat) ≤ maxVal :=
      le_trans (le_digitsVal_shift cs (n * 10 + (c.toNat - '0'.toNat))) hle2
    simp only [parseDigits, hcd, if_true]
    rw [if_neg (by omega : ¬ n * 10 + (c.toNat - '0'.toNat) > maxVal)]
    rw [ih _ (fun x hx => hd x (List.mem_cons_of_mem _ hx)) hle2, htotal]

/-- Helper: ParseUint succeeds on an all-digit string whose value fits the
bit size. -/
theorem goParseUint_ok (c : Char) (cs : List Char) (bitSize : Nat)
    (hd : ∀ x ∈ c :: cs, x.isDigit = true)
    (hle : digitsVal (c :: cs) ≤ 2 ^ bitSize - 1) :
    goParseUint ⟨c :: cs⟩ bitSize = (digitsVal (c :: cs), none) := by
  have h := parseDigits_ok "ParseUint" ⟨c :: cs⟩ (2 ^ bitSize - 1) (c :: cs) 0 hd
    (by simpa using hle)
  show parseDigits "ParseUint" ⟨c :: cs⟩ (2 ^ bitSize - 1) (c :: cs) 0 = _
  rw [h]
  simp

/-- Helper: ParseInt at 64 bits succeeds on an all-digit string below
`2^63`. -/
theorem goParseInt_pos_ok (c : Char) (cs : List Char)
    (hd : ∀ x ∈ c :: cs, x.isDigit = true)
    (hlt : digitsVal (c :: cs) < 2 ^ 63) :
    goParseInt ⟨c :: cs⟩ 64 = ((digitsVal (c :: cs) : Int), none) := by
  have hcd : c.isDigit = true := hd c (List.mem_cons_self c cs)
  have hplus : ¬ c = '+' := by
    intro he; rw [he] at hcd; exact absurd hcd (by decide)
  have hminus : ¬ c = '-' := by
    intro he; rw [he] at hcd; exact absurd hcd (by decide)
  have hmax : digitsVal (c :: cs) ≤ 2 ^ 64 - 1 := by
    have hb : (2 : Nat) ^ 63 ≤ 2 ^ 64 - 1 := by norm_num
    omega
  have hp := parseDigits_ok "ParseUint" ⟨c :: cs⟩ (2 ^ 64 - 1) (c :: cs) 0 hd
    (by simpa using hmax)
  norm_num at hp
  have hub : ¬ (9223372036854775808 : Nat) ≤ digitsVal (c :: cs) := by
    have h63 : (9223372036854775808 : Nat) = 2 ^ 63 := by norm_num
    omega
  simp only [goParseInt, hplus, hminus, decide_False, Bool.or_self, Bool.false_eq_true,
    if_false, hp]
  simp [intAfterParse, hub, hp]

/-- Helper: ParseInt at 64 bits succeeds on a minus sign followed by an
all-digit string whose value is at most `2^63`. -/
theorem goParseInt_neg_ok (c : Char) (cs : List Char)
    (hd : ∀ x ∈ c :: cs, x.isDigit = true)
    (hle : digitsVal (c :: cs) ≤ 2 ^ 63) :
    goParseInt ⟨'-' :: c :: cs⟩ 64 = (-(digitsVal (c :: cs) : Int), none) := by
  have hmax : digitsVal (c :: cs) ≤ 2 ^ 64 - 1 := by
    have hb : (2 : Nat) ^ 63 ≤ 2 ^ 64 - 1 := by norm_num
    omega
  have hp := parseDigits_ok "ParseUint" ⟨'-' :: c :: cs⟩ (2 ^ 64 - 1) (c :: cs) 0 hd
    (by simpa using hmax)
  norm_num at hp
  have hub : ¬ (9223372036854775808 : Nat) < digitsVal (c :: cs) := by
    have h63 : (9223372036854775808 : Nat) = 2 ^ 63 := by norm_num
    omega
  simp only [goParseInt, hp]
  simp [intAfterParse, hub, hp]

/-- C10: the native-width `int` and `uint` decoders range-check at 64 bits,
not the platform width: every all-digit string whose value fits the signed
(resp. unsigned) 64-bit range decodes successfully, with no further
native-width check; both entries are the ones registered in the decoder
table. -/
theorem native_int_decoders_use_64bit_range (ds : List Char) (hne : ds ≠ [])
    (hd : ∀ c ∈ ds, c.isDigit = true) :
    (digitsVal ds < 2 ^ 63 → decodeInt ⟨ds⟩ = (.int (digitsVal ds), none)) ∧
    (digitsVal ds ≤ 2 ^ 63 → decodeInt ⟨'-' :: ds⟩ = (.int (-(digitsVal ds : Int)), none)) ∧
    (digitsVal ds ≤ 2 ^ 64 - 1 → decodeUint ⟨ds⟩ = (.uint (digitsVal ds), none)) ∧
    decoders "int" = some decodeInt ∧ decoders "uint" = some decodeUint := by
  obtain ⟨c, cs, rfl⟩ : ∃ c cs, ds = c :: cs := by
    cases ds with
    | nil => exact absurd rfl hne
    | cons c cs => exact ⟨c, cs, rfl⟩
  refine ⟨?_, ?_, ?_, rfl, rfl⟩
  · intro h
    have hg := goParseInt_pos_ok c cs hd h
    simp [decodeInt, decodeIntW, hg]
  · intro h
    have hg := goParseInt_neg_ok c cs hd h
    simp [decodeInt, decodeIntW, hg]
  · intro h
    have hg := goParseUint_ok c cs 64 hd h
    simp [decodeUint, decodeUintW, hg]

end Env

namespace Env

/-- Witness for C10 at the exact 64-bit boundaries: the extreme `int64`
values and the maximal `uint64` value all decode, far beyond any 32-bit
native width. -/
theorem native_int_decoders_use_64bit_range_witness :
    decodeInt "9223372036854775807" = (.int 9223372036854775807, none) ∧
    decodeInt "-9223372036854775808" = (.int (-9223372036854775808), none) ∧
    decodeUint "18446744073709551615" = (.uint 18446744073709551615, none) := by
  refine ⟨?_, ?_, ?_⟩
  · exact (native_int_decoders_use_64bit_range "9223372036854775807".data
      (by decide) (by decide)).1 (by decide)
  · exact (native_int_decoders_use_64bit_range "9223372036854775808".data
      (by decide) (by decide)).2.1 (by decide)
  · exact (native_int_decoders_use_64bit_range "18446744073709551615".data
      (by decide) (by decide)).2.2.1 (by decide)

end Env
